/-
Verification of the HTML patch script (backend/public/patch.py).

The script reads two HTML files, applies a fixed sequence of textual
substitutions, writes them back and prints one line.  We embed the file
contents as `List Char` and each substitution step as a pure function:

* Python `str.replace pat repl` replaces every leftmost non-overlapping
  occurrence of `pat`, scanning left to right and resuming after the
  replaced segment of the original string.  This is `replaceAll`.
* Python `re.sub` (no count argument) likewise rewrites every leftmost
  non-overlapping match, resuming after each match.  The two regexes used
  by the script are embedded as concrete matchers: `matchStyle` for
  `<style>.*?</style>` with DOTALL (a literal `<style>`, then the shortest
  run of arbitrary characters up to the first literal `</style>`), and
  `matchBg` for the background-removal pattern (five literals separated by
  `\s*`; each `\s*` is a maximal whitespace run, deterministic here since
  every following literal starts with a non-whitespace character).
  `isPyWs` models `\s` on the ASCII range.

All recursion is structural (scanning functions recurse on the list, the
rewriting driver `subGo` on a fuel initialised to the length of the input,
which bounds the number of matches), so every definition evaluates by
`decide`.
-/

import Mathlib

set_option maxRecDepth 100000

namespace LeksiPatch

def footerMarkerStr : String := "    <footer>"

def promoStr : String := "    <div class=\"card\" style=\"text-align: center; border: 1px solid rgba(59, 130, 246, 0.3); background: linear-gradient(180deg, rgba(59,130,246,0.08) 0%, rgba(0,0,0,0.2) 100%);\">\n      <h2>Veien videre</h2>\n      <p style=\"margin-bottom: 24px;\">Vi jobber kontinuerlig med å forbedre Leksihjelp. Vil du vite mer om våre fremtidsplaner med ny ordbank og smarte anonyme stavekontroller?</p>\n      <a href=\"/fremtidsplaner\" class=\"github-link\" style=\"display: inline-flex; justify-content: center; background: #3b82f6; border-color: #3b82f6; color: #fff; font-weight: 600;\">\n        <svg viewBox=\"0 0 24 24\" width=\"20\" height=\"20\" fill=\"none\" stroke=\"currentColor\" stroke-width=\"2\" stroke-linecap=\"round\" stroke-linejoin=\"round\" style=\"margin-right: 6px;\"><circle cx=\"12\" cy=\"12\" r=\"10\"/><polyline points=\"12 6 12 12 16 14\"/></svg>\n        Se våre fremtidsplaner\n      </a>\n    </div>\n\n"

/-- The Python `new_section` triple-quoted literal: the promotional block
(`promoStr`) followed by the marker `    <footer>` on which it ends. -/
def newSectionStr : String := promoStr ++ footerMarkerStr

def newStyleStr : String := "  <style>\n    @import url(\x27https://fonts.googleapis.com/css2?family=Inter:wght@400;500;600;700&display=swap\x27);\n\n    :root \x7b\n      --bg-color: #0c0c0e;\n      --card-bg: rgba(255, 255, 255, 0.03);\n      --card-border: rgba(255, 255, 255, 0.08);\n      --text-primary: #f3f4f6;\n      --text-secondary: #9ca3af;\n      --accent: #3b82f6;\n      --accent-hover: #2563eb;\n      --success: #10b981;\n    \x7d\n\n    * \x7b\n      margin: 0;\n      padding: 0;\n      box-sizing: border-box;\n    \x7d\n\n    body \x7b\n      font-family: \x27Inter\x27, -apple-system, BlinkMacSystemFont, \x27Segoe UI\x27, Roboto, Oxygen, Ubuntu, sans-serif;\n      background-color: var(--bg-color);\n      background-image: radial-gradient(circle at top, rgba(59, 130, 246, 0.08) 0%, transparent 50%);\n      min-height: 100vh;\n      color: var(--text-primary);\n      line-height: 1.6;\n      overflow-x: hidden;\n      -webkit-font-smoothing: antialiased;\n    \x7d\n\n    /* ── Layout ── */\n    .container \x7b\n      position: relative;\n      z-index: 1;\n      max-width: 820px;\n      margin: 0 auto;\n      padding: 60px 20px;\n    \x7d\n\n    /* ── Header ── */\n    header \x7b\n      text-align: center;\n      margin-bottom: 60px;\n      animation: fadeInDown 0.8s ease-out both;\n    \x7d\n\n    .logo \x7b\n      font-size: 56px;\n      margin-bottom: 20px;\n      filter: drop-shadow(0 4px 12px rgba(0,0,0,0.5));\n    \x7d\n\n    h1 \x7b\n      font-size: 3.5rem;\n      font-weight: 700;\n      color: #fff;\n      margin-bottom: 16px;\n      letter-spacing: -0.04em;\n      line-height: 1.1;\n    \x7d\n\n    .tagline \x7b\n      font-size: 1.25rem;\n      color: var(--text-secondary);\n      max-width: 500px;\n      margin: 0 auto;\n    \x7d\n\n    .back-link \x7b\n      display: inline-flex;\n      align-items: center;\n      gap: 10px;\n      color: var(--text-primary);\n      text-decoration: none;\n      font-size: 0.95rem;\n      padding: 10px 20px;\n      background: rgba(255, 255, 255, 0.05);\n      border: 1px solid var(--card-border);\n      border-radius: 20px;\n      transition: all 0.2s;\n      font-weight: 500;\n      margin-top: 32px;\n    \x7d\n\n    .back-link:hover \x7b\n      background: rgba(255, 255, 255, 0.1);\n      transform: translateY(-1px);\n    \x7d\n\n    /* ── Glassmorphism cards ── */\n    .glass \x7b\n      background: var(--card-bg);\n      border: 1px solid var(--card-border);\n      backdrop-filter: blur(12px);\n      border-radius: 16px;\n      padding: 32px;\n      margin-bottom: 24px;\n      box-shadow: 0 4px 24px rgba(0, 0, 0, 0.2);\n      transition: transform 0.2s ease, box-shadow 0.2s ease;\n    \x7d\n\n    .glass:hover \x7b\n      box-shadow: 0 8px 32px rgba(0, 0, 0, 0.3);\n      border-color: rgba(255, 255, 255, 0.12);\n    \x7d\n\n    /* ── Scroll reveal animation ── */\n    .reveal \x7b\n      opacity: 0;\n      transform: translateY(20px);\n      transition: opacity 0.6s ease-out, transform 0.6s ease-out;\n    \x7d\n\n    .reveal.visible \x7b\n      opacity: 1;\n      transform: translateY(0);\n    \x7d\n\n    .stagger \x7b opacity: 0; transform: translateY(12px); \x7d\n    .reveal.visible .stagger \x7b animation: staggerIn 0.5s ease-out both; \x7d\n    .reveal.visible .stagger:nth-child(1) \x7b animation-delay: 0.1s; \x7d\n    .reveal.visible .stagger:nth-child(2) \x7b animation-delay: 0.18s; \x7d\n    .reveal.visible .stagger:nth-child(3) \x7b animation-delay: 0.26s; \x7d\n    .reveal.visible .stagger:nth-child(4) \x7b animation-delay: 0.34s; \x7d\n    .reveal.visible .stagger:nth-child(5) \x7b animation-delay: 0.42s; \x7d\n    .reveal.visible .stagger:nth-child(6) \x7b animation-delay: 0.50s; \x7d\n\n    @keyframes staggerIn \x7b\n      to \x7b opacity: 1; transform: translateY(0); \x7d\n    \x7d\n\n    @keyframes fadeInDown \x7b\n      from \x7b opacity: 0; transform: translateY(-20px); \x7d\n      to \x7b opacity: 1; transform: translateY(0); \x7d\n    \x7d\n\n    /* ── Typography ── */\n    h2 \x7b\n      font-size: 1.5rem;\n      font-weight: 600;\n      margin-bottom: 24px;\n      letter-spacing: -0.02em;\n      color: #fff;\n      display: flex;\n      align-items: center;\n      gap: 8px;\n    \x7d\n\n    h3 \x7b\n      font-size: 1.1rem;\n      margin-bottom: 12px;\n      color: #fff;\n      font-weight: 500;\n    \x7d\n\n    p \x7b\n      color: var(--text-secondary);\n      margin-bottom: 16px;\n    \x7d\n\n    /* ── Phase labels ── */\n    .phase-label \x7b\n      display: inline-block;\n      font-size: 0.75rem;\n      font-weight: 600;\n      padding: 6px 14px;\n      border-radius: 20px;\n      margin-bottom: 24px;\n      letter-spacing: 0.05em;\n      text-transform: uppercase;\n      background: rgba(255, 255, 255, 0.05);\n      border: 1px solid var(--card-border);\n      color: var(--text-secondary);\n    \x7d\n\n    /* ── Language grid ── */\n    .lang-grid \x7b\n      display: grid;\n      grid-template-columns: repeat(3, 1fr);\n      gap: 16px;\n      margin: 32px 0;\n    \x7d\n\n    .lang-card \x7b\n      background: rgba(0, 0, 0, 0.2);\n      padding: 24px 16px;\n      border-radius: 12px;\n      text-align: center;\n      border: 1px solid var(--card-border);\n      transition: all 0.2s;\n    \x7d\n\n    .lang-card:hover \x7b\n      background: rgba(255, 255, 255, 0.05);\n      transform: translateY(-2px);\n    \x7d\n\n    .lang-card .flag \x7b\n      font-size: 2.2rem;\n      margin-bottom: 12px;\n      filter: drop-shadow(0 2px 8px rgba(0,0,0,0.2));\n    \x7d\n\n    .lang-card .name \x7b\n      font-weight: 500;\n      font-size: 0.95rem;\n      color: var(--text-primary);\n    \x7d\n\n    .lang-card .code \x7b\n      font-size: 0.75rem;\n      color: var(--text-secondary);\n      margin-top: 4px;\n      font-family: \x27SF Mono\x27, Menlo, Monaco, Consolas, monospace;\n    \x7d\n\n    /* ── List items ── */\n    ul \x7b\n      list-style: none;\n      padding: 0;\n    \x7d\n\n    li \x7b\n      padding: 8px 0;\n      position: relative;\n      color: var(--text-secondary);\n      font-size: 0.95rem;\n    \x7d\n\n    .roadmap-item \x7b\n      padding-left: 28px;\n    \x7d\n\n    .roadmap-item::before \x7b\n      content: \"✓\";\n      position: absolute;\n      left: 0;\n      color: var(--success);\n      font-weight: bold;\n      font-size: 1.1rem;\n    \x7d\n\n    /* ── Highlight / info boxes ── */\n    .highlight-box, .privacy-box \x7b\n      background: rgba(0, 0, 0, 0.2);\n      border: 1px solid var(--card-border);\n      border-radius: 12px;\n      padding: 24px;\n      margin: 32px 0;\n      position: relative;\n    \x7d\n\n    .highlight-box h3, .privacy-box h3 \x7b\n      color: #fff;\n    \x7d\n\n    /* ── Diagram ── */\n    .diagram \x7b\n      background: rgba(0, 0, 0, 0.3);\n      border-radius: 12px;\n      padding: 24px;\n      margin: 32px 0;\n      font-family: \x27SF Mono\x27, Menlo, Monaco, Consolas, monospace;\n      font-size: 0.85rem;\n      line-height: 1.8;\n      color: var(--text-secondary);\n      overflow-x: auto;\n      white-space: pre;\n      border: 1px solid var(--card-border);\n    \x7d\n\n    .diagram .keyword \x7b\n      color: var(--accent);\n    \x7d\n\n    .diagram .value \x7b\n      color: var(--success);\n    \x7d\n\n    .diagram .comment \x7b\n      color: rgba(255, 255, 255, 0.3);\n    \x7d\n\n    /* ── Vision card accent ── */\n    .vision-card \x7b\n      position: relative;\n      overflow: hidden;\n      border: 1px solid rgba(59, 130, 246, 0.3);\n      background: linear-gradient(180deg, rgba(59,130,246,0.08) 0%, rgba(0,0,0,0.2) 100%);\n    \x7d\n\n    /* ── Footer ── */\n    footer \x7b\n      text-align: center;\n      margin-top: 60px;\n      padding: 32px 20px;\n      border-top: 1px solid var(--card-border);\n      color: var(--text-secondary);\n      font-size: 0.9rem;\n      animation: fadeInDown 0.8s ease-out 0.3s both;\n    \x7d\n\n    footer a \x7b\n      color: var(--text-primary);\n      text-decoration: none;\n      transition: color 0.2s;\n    \x7d\n\n    footer a:hover \x7b\n      color: var(--accent);\n    \x7d\n\n    .footer-legal \x7b\n      margin-top: 16px;\n      font-size: 0.8rem;\n      color: rgba(255, 255, 255, 0.3);\n      line-height: 1.6;\n      max-width: 600px;\n      margin-left: auto;\n      margin-right: auto;\n    \x7d\n\n    /* ── Responsive ── */\n    @media (max-width: 768px) \x7b\n      h1 \x7b\n        font-size: 2.5rem;\n      \x7d\n      .container \x7b\n        padding: 40px 16px;\n      \x7d\n      .lang-grid \x7b\n        grid-template-columns: repeat(2, 1fr);\n        gap: 12px;\n      \x7d\n      .lang-card \x7b\n        padding: 16px 12px;\n      \x7d\n      .diagram \x7b\n        font-size: 0.75rem;\n        padding: 16px;\n      \x7d\n    \x7d\n    \n    @media (max-width: 480px) \x7b\n      .lang-grid \x7b\n        grid-template-columns: 1fr;\n      \x7d\n    \x7d\n  </style>"

def styleOpenStr : String := "<style>"

def styleCloseStr : String := "</style>"

def bgLit1Str : String := "<!-- Animated background -->"

def bgLit2Str : String := "<div class=\"bg-gradient\"></div>"

def bgLit3Str : String := "<div class=\"bg-orb bg-orb-1\"></div>"

def bgLit4Str : String := "<div class=\"bg-orb bg-orb-2\"></div>"

def bgLit5Str : String := "<div class=\"bg-orb bg-orb-3\"></div>"

def purpleStr : String := "style=\"color:#a78bfa;text-decoration:none;border-bottom:1px solid rgba(167,139,250,0.3);transition:border-color 0.2s;\""

def blueStr : String := "style=\"color:#3b82f6;text-decoration:none;border-bottom:1px solid rgba(59,130,246,0.3);transition:border-color 0.2s;\""

def pOldStr : String := "<p style=\"margin-bottom:0;\">"

def pNewStr : String := "<p style=\"margin-bottom:0;color:var(--text-secondary);\">"

def footerTagStr : String := "<footer>"

def doneStr : String := "Done patching."

/-- The literal searched by the `index.html` step: note the four leading
spaces, exactly as in the `index_content.replace` call on the marker
`    <footer>` with `new_section`. -/
def footerMarkerData : List Char := footerMarkerStr.data

def newSectionData : List Char := newSectionStr.data

def promoData : List Char := promoStr.data

def newStyleData : List Char := newStyleStr.data

def styleOpenData : List Char := styleOpenStr.data

def styleCloseData : List Char := styleCloseStr.data

def bgLit1Data : List Char := bgLit1Str.data

def bgLit2Data : List Char := bgLit2Str.data

def bgLit3Data : List Char := bgLit3Str.data

def bgLit4Data : List Char := bgLit4Str.data

def bgLit5Data : List Char := bgLit5Str.data

def purpleData : List Char := purpleStr.data

def blueData : List Char := blueStr.data

def pOldData : List Char := pOldStr.data

def pNewData : List Char := pNewStr.data

def footerTagData : List Char := footerTagStr.data

def doneData : List Char := doneStr.data

/-- `leadsWith pat s` holds when `pat` is an initial segment of `s`
(Python `s.startswith(pat)`). -/
def leadsWith : List Char → List Char → Bool
  | [], _ => true
  | _ :: _, [] => false
  | a :: as, b :: bs => a == b && leadsWith as bs

/-- `trails pat s` holds when `pat` is a final segment of `s`
(Python `s.endswith(pat)`). -/
def trails (pat s : List Char) : Bool :=
  leadsWith pat.reverse s.reverse

/-- Tail-recursive scan for the leftmost occurrence of the literal `pat`,
accumulating the text already passed (in reverse). -/
def sfGo (pat : List Char) (acc : List Char) : List Char → Option (List Char × List Char)
  | [] => none
  | c :: rest =>
    if leadsWith pat (c :: rest) then
      some (acc.reverse, (c :: rest).drop pat.length)
    else
      sfGo pat (c :: acc) rest

/-- Leftmost occurrence of the (nonempty) literal `pat` in `s`:
`some (pre, post)` with `s = pre ++ pat ++ post` and no occurrence of
`pat` starting earlier than `pre.length`; `none` when `pat` does not
occur. -/
def splitFirst (pat : List Char) (s : List Char) : Option (List Char × List Char) :=
  sfGo pat [] s

/-- Reference (non-accumulator) version of `splitFirst`, used in proofs. -/
def sfRec (pat : List Char) : List Char → Option (List Char × List Char)
  | [] => none
  | c :: rest =>
    if leadsWith pat (c :: rest) then
      some ([], (c :: rest).drop pat.length)
    else
      match sfRec pat rest with
      | some (pre, post) => some (c :: pre, post)
      | none => none

/-- Generic driver for replace-all style rewriting.  `find` locates the
leftmost match, returning the text before it and the text after it; the
match is replaced by `repl` and rewriting resumes after it.  The fuel
bounds the number of matches; since every match consumes at least one
character, `s.length` fuel is always enough. -/
def subGo (find : List Char → Option (List Char × List Char))
    (repl : List Char) : Nat → List Char → List Char
  | 0, s => s
  | fuel + 1, s =>
    match find s with
    | none => s
    | some (pre, post) => pre ++ repl ++ subGo find repl fuel post

def subAll (find : List Char → Option (List Char × List Char))
    (repl : List Char) (s : List Char) : List Char :=
  subGo find repl s.length s

/-- Embedding of Python `s.replace(pat, repl)` (no count argument):
every leftmost non-overlapping occurrence is rewritten. -/
def replaceAll (pat repl s : List Char) : List Char :=
  subAll (splitFirst pat) repl s

/-- Number of leftmost non-overlapping occurrences of `pat` in `s`,
counted by the same scan as `replaceAll`. -/
def cntGo (pat : List Char) : Nat → List Char → Nat
  | 0, _ => 0
  | fuel + 1, s =>
    match splitFirst pat s with
    | none => 0
    | some (_, post) => cntGo pat fuel post + 1

def countOccs (pat s : List Char) : Nat :=
  cntGo pat s.length s

/-- Match a literal at the start of `s`, returning the remainder. -/
def matchLit (lit s : List Char) : Option (List Char) :=
  if leadsWith lit s then some (s.drop lit.length) else none

/-- ASCII whitespace as matched by Python regex `\s`. -/
def isPyWs (c : Char) : Bool :=
  c == ' ' || c == '\t' || c == '\n' || c.toNat == 11 || c.toNat == 12 || c == '\r'

/-- Drop the maximal leading whitespace run (the deterministic effect of a
greedy `\s*` followed by a literal starting with a non-whitespace char). -/
def dropWs : List Char → List Char
  | [] => []
  | c :: rest => if isPyWs c then dropWs rest else c :: rest

/-- Match of the background-removal regex at the start of `s`: the five
HTML literals separated by whitespace runs.  Returns the remainder after
the match. -/
def matchBg (s : List Char) : Option (List Char) :=
  match matchLit bgLit1Data s with
  | none => none
  | some s1 =>
    match matchLit bgLit2Data (dropWs s1) with
    | none => none
    | some s2 =>
      match matchLit bgLit3Data (dropWs s2) with
      | none => none
      | some s3 =>
        match matchLit bgLit4Data (dropWs s3) with
        | none => none
        | some s4 => matchLit bgLit5Data (dropWs s4)

/-- Match of the regex `<style>.*?</style>` (DOTALL) at the start of `s`:
a literal `<style>`, then the non-greedy `.*?` runs to the first literal
`</style>`.  Returns the remainder after the closing tag. -/
def matchStyle (s : List Char) : Option (List Char) :=
  if leadsWith styleOpenData s then
    match splitFirst styleCloseData (s.drop styleOpenData.length) with
    | some (_, post) => some post
    | none => none
  else none

/-- Leftmost-match search for an arbitrary matcher `m`: try `m` at every
position from the left, exactly as the regex engine scans for `re.sub`. -/
def findScan (m : List Char → Option (List Char)) :
    List Char → Option (List Char × List Char)
  | [] => none
  | c :: rest =>
    match m (c :: rest) with
    | some post => some ([], post)
    | none =>
      match findScan m rest with
      | some (pre, post) => some (c :: pre, post)
      | none => none

def findStyle : List Char → Option (List Char × List Char) :=
  findScan matchStyle

def findBg : List Char → Option (List Char × List Char) :=
  findScan matchBg

/-- `find` consumes at least one character at every match: enough for
`s.length` fuel in `subGo`. -/
def Shrinking (find : List Char → Option (List Char × List Char)) : Prop :=
  ∀ s pre post, find s = some (pre, post) → post.length < s.length

/-- No occurrence of `pat` spans the boundary between `a` and `b`:
whenever a proper initial segment of `pat` ends `a`, the matching final
segment of `pat` does not begin `b`. -/
def NoSpan (pat a b : List Char) : Prop :=
  ∀ k, 0 < k → k < pat.length → trails (pat.take k) a = true →
    leadsWith (pat.drop k) b = false

def allRangeBool (n : Nat) (f : Nat → Bool) : Bool :=
  (List.range n).all f

/-- Checks that no nonempty proper final segment of `pat` begins `c`. -/
def noPrefixDrop (pat c : List Char) : Bool :=
  allRangeBool pat.length fun k => k == 0 || !(leadsWith (pat.drop k) c)

/-- Checks that no nonempty proper initial segment of `pat` ends `a`. -/
def noTrailsTake (pat a : List Char) : Bool :=
  allRangeBool pat.length fun k => k == 0 || !(trails (pat.take k) a)

/-- `chain sep [s0, ..., sk] last = s0 ++ sep ++ s1 ++ sep ++ ... ++ sk ++ sep ++ last`:
a decomposition of a string along occurrences of `sep`. -/
def chain (sep : List Char) : List (List Char) → List Char → List Char
  | [], last => last
  | s :: rest, last => s ++ sep ++ chain sep rest last

/-- The decomposition `chain pat segs last` lists exactly the leftmost
non-overlapping occurrences of `pat`, in scan order: at every stage the
next leftmost occurrence is the displayed one, and `last` contains none. -/
def GoodChain (pat : List Char) : List (List Char) → List Char → Prop
  | [], last => splitFirst pat last = none
  | s :: rest, last =>
    splitFirst pat (chain pat (s :: rest) last) = some (s, chain pat rest last) ∧
    GoodChain pat rest last

/-- Step 1 of the script, on `index.html` content: the
`index_content.replace` call rewriting the marker `    <footer>` to
`new_section`. -/
def patchIndexStep (s : List Char) : List Char :=
  replaceAll footerMarkerData newSectionData s

/-- The `re.sub` of the regex `<style>.*?</style>` (flag DOTALL) by `new_style`
over `fremtidsplaner_content`. -/
def fremtidStyleStep (s : List Char) : List Char :=
  subAll findStyle newStyleData s

/-- The `re.sub` of `bg_elements_pattern` (flag DOTALL) by the empty string
over `fremtidsplaner_content`. -/
def fremtidBgStep (s : List Char) : List Char :=
  subAll findBg [] s

/-- The purple-to-blue inline style attribute `.replace(...)` (all occurrences). -/
def fremtidPurpleStep (s : List Char) : List Char :=
  replaceAll purpleData blueData s

/-- The `<p style="margin-bottom:0;">` `.replace(...)` (all occurrences). -/
def fremtidParaStep (s : List Char) : List Char :=
  replaceAll pOldData pNewData s

/-- The whole `fremtidsplaner.html` pipeline, in the script order. -/
def patchFremtidStep (s : List Char) : List Char :=
  fremtidParaStep (fremtidPurpleStep (fremtidBgStep (fremtidStyleStep s)))

/-- One run of the patcher on the pair of file contents. -/
def patchPair (p : List Char × List Char) : List Char × List Char :=
  (patchIndexStep p.1, patchFremtidStep p.2)

/-- One run of the patcher, with its observable outputs: the two rewritten
file contents and the line printed to standard output. -/
def patchRun (a b : List Char) : List Char × List Char × List Char :=
  (patchIndexStep a, patchFremtidStep b, doneData)

section Lemmas

lemma leadsWith_ex {pat s : List Char} :
    leadsWith pat s = true ↔ ∃ t, s = pat ++ t := by
  induction pat generalizing s with
  | nil => simp [leadsWith]
  | cons a as ih =>
    cases s with
    | nil => simp [leadsWith]
    | cons b bs =>
      simp only [leadsWith, Bool.and_eq_true, beq_iff_eq, ih]
      constructor
      · rintro ⟨rfl, t, rfl⟩
        exact ⟨t, rfl⟩
      · rintro ⟨t, h⟩
        rw [List.cons_append] at h
        injection h with h1 h2
        exact ⟨h1.symm, t, h2⟩

lemma leadsWith_append_self (pat t : List Char) : leadsWith pat (pat ++ t) = true :=
  leadsWith_ex.mpr ⟨t, rfl⟩

lemma leadsWith_refl (pat : List Char) : leadsWith pat pat = true := by
  have := leadsWith_append_self pat []
  simpa using this

lemma leadsWith_length_le {pat s : List Char} (h : leadsWith pat s = true) :
    pat.length ≤ s.length := by
  obtain ⟨t, rfl⟩ := leadsWith_ex.mp h
  rw [List.length_append]
  exact Nat.le_add_right _ _

lemma leadsWith_append_of_le {x a : List Char} (b : List Char)
    (h : x.length ≤ a.length) : leadsWith x (a ++ b) = leadsWith x a := by
  induction x generalizing a with
  | nil => simp [leadsWith]
  | cons c xs ih =>
    cases a with
    | nil => simp at h
    | cons d as =>
      simp only [List.length_cons] at h
      have h' : xs.length ≤ as.length := Nat.le_of_succ_le_succ h
      show (c == d && leadsWith xs (as ++ b)) = (c == d && leadsWith xs as)
      rw [ih h']

lemma trails_ex {pat s : List Char} : trails pat s = true ↔ ∃ t, s = t ++ pat := by
  unfold trails
  rw [leadsWith_ex]
  constructor
  · rintro ⟨t, h⟩
    refine ⟨t.reverse, ?_⟩
    have h2 := congrArg List.reverse h
    simpa [List.reverse_append] using h2
  · rintro ⟨t, rfl⟩
    exact ⟨t.reverse, by simp [List.reverse_append]⟩

lemma trails_append_of_le {x b : List Char} (a : List Char)
    (h : x.length ≤ b.length) : trails x (a ++ b) = trails x b := by
  unfold trails
  rw [List.reverse_append, leadsWith_append_of_le _ (by simpa using h)]

lemma sfGo_eq (pat : List Char) : ∀ (s acc : List Char),
    sfGo pat acc s = (sfRec pat s).map (fun pp => (acc.reverse ++ pp.1, pp.2)) := by
  intro s
  induction s with
  | nil => intro acc; rfl
  | cons c rest ih =>
    intro acc
    by_cases hlw : leadsWith pat (c :: rest) = true
    · simp [sfGo, sfRec, hlw]
    · simp only [sfGo, sfRec, hlw, if_false, Bool.false_eq_true]
      rw [ih]
      cases hr : sfRec pat rest with
      | none => simp
      | some pp =>
        cases pp with
        | mk pre post => simp [List.reverse_cons, List.append_assoc]

lemma sf_eq (pat s : List Char) : splitFirst pat s = sfRec pat s := by
  unfold splitFirst
  rw [sfGo_eq]
  cases hr : sfRec pat s with
  | none => simp
  | some pp => cases pp with | mk pre post => simp

lemma sfRec_eq_append {pat s pre post : List Char}
    (h : sfRec pat s = some (pre, post)) : s = pre ++ pat ++ post := by
  induction s generalizing pre post with
  | nil => simp [sfRec] at h
  | cons c rest ih =>
    by_cases hlw : leadsWith pat (c :: rest) = true
    · simp only [sfRec, hlw, if_true, Option.some.injEq, Prod.mk.injEq] at h
      obtain ⟨h1, h2⟩ := h
      subst h1; subst h2
      obtain ⟨t, ht⟩ := leadsWith_ex.mp hlw
      rw [ht, List.drop_left]
      simp
    · simp only [sfRec, hlw, if_false, Bool.false_eq_true] at h
      cases hr : sfRec pat rest with
      | none => rw [hr] at h; simp at h
      | some pp =>
        obtain ⟨p, q⟩ := pp
        rw [hr] at h
        simp only [Option.some.injEq, Prod.mk.injEq] at h
        obtain ⟨h1, h2⟩ := h
        subst h1; subst h2
        have := ih hr
        simp [this, List.append_assoc]

lemma sfRec_leftmost {pat s pre post : List Char}
    (h : sfRec pat s = some (pre, post)) :
    ∀ a b, s = a ++ pat ++ b → pre.length ≤ a.length := by
  induction s generalizing pre post with
  | nil => simp [sfRec] at h
  | cons c rest ih =>
    intro a b heq
    by_cases hlw : leadsWith pat (c :: rest) = true
    · simp only [sfRec, hlw, if_true, Option.some.injEq, Prod.mk.injEq] at h
      obtain ⟨h1, _⟩ := h
      subst h1
      simp
    · simp only [sfRec, hlw, if_false, Bool.false_eq_true] at h
      cases a with
      | nil =>
        exfalso
        apply hlw
        rw [heq]
        simp only [List.nil_append]
        exact leadsWith_append_self pat b
      | cons d as =>
        cases hr : sfRec pat rest with
        | none => rw [hr] at h; simp at h
        | some pp =>
          obtain ⟨p, q⟩ := pp
          rw [hr] at h
          simp only [Option.some.injEq, Prod.mk.injEq] at h
          obtain ⟨h1, _⟩ := h
          subst h1
          rw [List.cons_append, List.cons_append] at heq
          injection heq with hcd htl
          simp only [List.length_cons]
          exact Nat.succ_le_succ (ih hr as b htl)

lemma sfRec_self_append {pat : List Char} (hne : pat ≠ []) (rest : List Char) :
    sfRec pat (pat ++ rest) = some ([], rest) := by
  obtain ⟨c, cs, rfl⟩ : ∃ c cs, pat = c :: cs := by
    cases pat with
    | nil => exact absurd rfl hne
    | cons c cs => exact ⟨c, cs, rfl⟩
  have hlw : leadsWith (c :: cs) (c :: (cs ++ rest)) = true := by
    simpa using leadsWith_append_self (c :: cs) rest
  show sfRec (c :: cs) (c :: (cs ++ rest)) = some ([], rest)
  simp only [sfRec, hlw, if_true, Option.some.injEq, Prod.mk.injEq, true_and]
  rw [List.length_cons, List.drop_succ_cons, List.drop_left]

lemma sfRec_of_leftmost {pat : List Char} (hne : pat ≠ []) :
    ∀ (A B : List Char),
    (∀ a b, A ++ pat ++ B = a ++ pat ++ b → A.length ≤ a.length) →
    sfRec pat (A ++ pat ++ B) = some (A, B) := by
  intro A
  induction A with
  | nil =>
    intro B _
    simpa using sfRec_self_append hne B
  | cons d as ih =>
    intro B hmin
    have hnlw : ¬ leadsWith pat (d :: (as ++ pat ++ B)) = true := by
      intro hlw
      obtain ⟨t, ht⟩ := leadsWith_ex.mp hlw
      have h0 := hmin [] t (by simpa [List.cons_append] using ht)
      simp at h0
    show sfRec pat (d :: (as ++ pat ++ B)) = some (d :: as, B)
    simp only [sfRec, hnlw, if_false, Bool.false_eq_true]
    have hmin' : ∀ a b, as ++ pat ++ B = a ++ pat ++ b → as.length ≤ a.length := by
      intro a b hab
      have := hmin (d :: a) b (by simp [List.cons_append, hab])
      simpa using this
    rw [ih B hmin']

lemma sfRec_sub_none {pat s pre post : List Char}
    (h : sfRec pat s = some (pre, post)) : sfRec pat pre = none := by
  induction s generalizing pre post with
  | nil => simp [sfRec] at h
  | cons c rest ih =>
    by_cases hlw : leadsWith pat (c :: rest) = true
    · simp only [sfRec, hlw, if_true, Option.some.injEq, Prod.mk.injEq] at h
      obtain ⟨h1, _⟩ := h
      subst h1
      rfl
    · simp only [sfRec, hlw, if_false, Bool.false_eq_true] at h
      cases hr : sfRec pat rest with
      | none => rw [hr] at h; simp at h
      | some pp =>
        obtain ⟨p, q⟩ := pp
        rw [hr] at h
        simp only [Option.some.injEq, Prod.mk.injEq] at h
        obtain ⟨h1, _⟩ := h
        subst h1
        have hnlw2 : ¬ leadsWith pat (c :: p) = true := by
          intro hlw2
          apply hlw
          obtain ⟨t, ht⟩ := leadsWith_ex.mp hlw2
          have hrest := sfRec_eq_append hr
          rw [hrest, show c :: (p ++ pat ++ q) = (c :: p) ++ (pat ++ q) by simp [List.cons_append, List.append_assoc], ht]
          rw [List.append_assoc]
          exact leadsWith_append_self pat _
        simp only [sfRec, hnlw2, if_false, Bool.false_eq_true, ih hr]

lemma sfRec_append_left {pat a b pre post : List Char}
    (h : sfRec pat a = some (pre, post)) :
    sfRec pat (a ++ b) = some (pre, post ++ b) := by
  induction a generalizing pre post with
  | nil => simp [sfRec] at h
  | cons c rest ih =>
    by_cases hlw : leadsWith pat (c :: rest) = true
    · simp only [sfRec, hlw, if_true, Option.some.injEq, Prod.mk.injEq] at h
      obtain ⟨h1, h2⟩ := h
      subst h1; subst h2
      have hlw2 : leadsWith pat (c :: (rest ++ b)) = true := by
        obtain ⟨t, ht⟩ := leadsWith_ex.mp hlw
        apply leadsWith_ex.mpr
        refine ⟨t ++ b, ?_⟩
        rw [show c :: (rest ++ b) = (c :: rest) ++ b by simp, ht, List.append_assoc]
      show sfRec pat (c :: (rest ++ b)) = some ([], List.drop pat.length (c :: rest) ++ b)
      simp only [sfRec, hlw2, if_true, Option.some.injEq, Prod.mk.injEq, true_and]
      have hle : pat.length ≤ (c :: rest).length := leadsWith_length_le hlw
      rw [show c :: (rest ++ b) = (c :: rest) ++ b by simp, List.drop_append_eq_append_drop,
        Nat.sub_eq_zero_of_le hle, List.drop_zero]
    · simp only [sfRec, hlw, if_false, Bool.false_eq_true] at h
      cases hr : sfRec pat rest with
      | none => rw [hr] at h; simp at h
      | some pp =>
        obtain ⟨p, q⟩ := pp
        rw [hr] at h
        simp only [Option.some.injEq, Prod.mk.injEq] at h
        obtain ⟨h1, h2⟩ := h
        subst h1; subst h2
        have hlen : pat.length ≤ rest.length := by
          have := sfRec_eq_append hr
          rw [this]
          simp [List.length_append]
          omega
        have hle : pat.length ≤ (c :: rest).length := by
          simp only [List.length_cons]
          omega
        have hnlw2 : ¬ leadsWith pat (c :: (rest ++ b)) = true := by
          intro hcon
          apply hlw
          rw [← leadsWith_append_of_le b hle]
          simpa using hcon
        show sfRec pat (c :: (rest ++ b)) = some (c :: p, q ++ b)
        simp only [sfRec, hnlw2, if_false, Bool.false_eq_true, ih hr]

lemma noSpan_mono {pat b u q : List Char} (h : NoSpan pat (u ++ q) b) : NoSpan pat q b := by
  intro k hk1 hk2 ht
  apply h k hk1 hk2
  obtain ⟨t, rfl⟩ := trails_ex.mp ht
  exact trails_ex.mpr ⟨u ++ t, by simp [List.append_assoc]⟩

lemma sfRec_skip {pat : List Char} :
    ∀ (a b : List Char), sfRec pat a = none → NoSpan pat a b →
    sfRec pat (a ++ b) = (sfRec pat b).map (fun pp => (a ++ pp.1, pp.2)) := by
  intro a
  induction a with
  | nil =>
    intro b _ _
    simp only [List.nil_append]
    cases hr : sfRec pat b with
    | none => simp
    | some pp => cases pp with | mk p q => simp
  | cons c a' ih =>
    intro b hnone hns
    have hnlw : ¬ leadsWith pat (c :: a') = true := by
      intro hlw
      simp [sfRec, hlw] at hnone
    have hnone' : sfRec pat a' = none := by
      simp only [sfRec, hnlw, if_false, Bool.false_eq_true] at hnone
      cases hr : sfRec pat a' with
      | none => rfl
      | some pp =>
        obtain ⟨p, q⟩ := pp
        rw [hr] at hnone
        simp at hnone
    have hnlw2 : ¬ leadsWith pat (c :: (a' ++ b)) = true := by
      intro hlw
      by_cases hlen : pat.length ≤ (c :: a').length
      · apply hnlw
        rw [← leadsWith_append_of_le b hlen]
        simpa using hlw
      · push_neg at hlen
        obtain ⟨t, ht⟩ := leadsWith_ex.mp hlw
        have h2 : (c :: a') ++ b = pat ++ t := by simpa using ht
        have hk1 : 0 < (c :: a').length := by simp
        have htake : pat.take (c :: a').length = c :: a' := by
          have h3 := congrArg (List.take (c :: a').length) h2
          rw [List.take_left] at h3
          rw [List.take_append_eq_append_take,
            Nat.sub_eq_zero_of_le (Nat.le_of_lt hlen), List.take_zero, List.append_nil] at h3
          exact h3.symm
        have hdrop : leadsWith (pat.drop (c :: a').length) b = true := by
          have h3 := congrArg (List.drop (c :: a').length) h2
          rw [List.drop_left] at h3
          rw [List.drop_append_eq_append_drop,
            Nat.sub_eq_zero_of_le (Nat.le_of_lt hlen), List.drop_zero] at h3
          rw [h3]
          exact leadsWith_append_self _ _
        have hts : trails (pat.take (c :: a').length) (c :: a') = true := by
          rw [htake]
          exact trails_ex.mpr ⟨[], by simp⟩
        have hfalse := hns (c :: a').length hk1 hlen hts
        rw [hdrop] at hfalse
        simp at hfalse
    show sfRec pat (c :: (a' ++ b)) = (sfRec pat b).map fun pp => ((c :: a') ++ pp.1, pp.2)
    simp only [sfRec, hnlw2, if_false, Bool.false_eq_true]
    rw [ih b hnone' (noSpan_mono (u := [c]) (by simpa using hns))]
    cases hr : sfRec pat b with
    | none => simp
    | some pp => cases pp with | mk p q => simp

lemma sfRec_append_none {pat a b : List Char}
    (ha : sfRec pat a = none) (hns : NoSpan pat a b) (hb : sfRec pat b = none) :
    sfRec pat (a ++ b) = none := by
  rw [sfRec_skip a b ha hns, hb]
  rfl

lemma sfRec_append_some {pat a b p q : List Char}
    (ha : sfRec pat a = none) (hns : NoSpan pat a b) (hb : sfRec pat b = some (p, q)) :
    sfRec pat (a ++ b) = some (a ++ p, q) := by
  rw [sfRec_skip a b ha hns, hb]
  rfl

lemma subGo_fuel {find : List Char → Option (List Char × List Char)} {repl : List Char}
    (hf : Shrinking find) :
    ∀ f s, s.length ≤ f → subGo find repl f s = subGo find repl s.length s := by
  intro f
  induction f using Nat.strong_induction_on with
  | _ f ih =>
    intro s hs
    cases f with
    | zero =>
      have h0 : s.length = 0 := Nat.le_zero.mp hs
      rw [h0]
    | succ m =>
      cases h : find s with
      | none =>
        simp only [subGo, h]
        cases hn : s.length with
        | zero => rfl
        | succ k => simp [subGo, h]
      | some pp =>
        obtain ⟨pre, post⟩ := pp
        have hp : post.length < s.length := hf s pre post h
        obtain ⟨k, hk⟩ : ∃ k, s.length = k + 1 := ⟨s.length - 1, by omega⟩
        simp only [subGo, h]
        rw [hk]
        simp only [subGo, h]
        have e1 : subGo find repl m post = subGo find repl post.length post :=
          ih m (Nat.lt_succ_self m) post (by omega)
        have e2 : subGo find repl k post = subGo find repl post.length post :=
          ih k (by omega) post (by omega)
        rw [e1, e2]

lemma sub_none {find : List Char → Option (List Char × List Char)} {repl s : List Char}
    (h : find s = none) : subAll find repl s = s := by
  unfold subAll
  cases hn : s.length with
  | zero => rfl
  | succ k => simp [subGo, h]

lemma sub_some {find : List Char → Option (List Char × List Char)} {repl s pre post : List Char}
    (hf : Shrinking find) (h : find s = some (pre, post)) :
    subAll find repl s = pre ++ repl ++ subAll find repl post := by
  unfold subAll
  have hp : post.length < s.length := hf s pre post h
  obtain ⟨k, hk⟩ : ∃ k, s.length = k + 1 := ⟨s.length - 1, by omega⟩
  rw [hk]
  simp only [subGo, h]
  rw [subGo_fuel hf k post (by omega)]

lemma shrink_splitFirst {pat : List Char} (hne : pat ≠ []) : Shrinking (splitFirst pat) := by
  intro s pre post h
  rw [sf_eq] at h
  rw [sfRec_eq_append h]
  simp only [List.length_append]
  have hpos : 0 < pat.length := List.length_pos.mpr hne
  omega

lemma shrink_findScan {m : List Char → Option (List Char)}
    (hm : ∀ s r, m s = some r → r.length < s.length) : Shrinking (findScan m) := by
  intro s
  induction s with
  | nil =>
    intro pre post h
    simp [findScan] at h
  | cons c rest ih =>
    intro pre post h
    cases hmc : m (c :: rest) with
    | some r =>
      simp only [findScan, hmc, Option.some.injEq, Prod.mk.injEq] at h
      obtain ⟨_, h2⟩ := h
      subst h2
      exact hm _ _ hmc
    | none =>
      simp only [findScan, hmc] at h
      cases hr : findScan m rest with
      | none => rw [hr] at h; simp at h
      | some pp =>
        obtain ⟨p, q⟩ := pp
        rw [hr] at h
        simp only [Option.some.injEq, Prod.mk.injEq] at h
        obtain ⟨_, h2⟩ := h
        subst h2
        have hq := ih p q hr
        simp only [List.length_cons]
        omega

lemma matchLit_some {lit s t : List Char} (h : matchLit lit s = some t) :
    t.length + lit.length = s.length := by
  unfold matchLit at h
  by_cases hlw : leadsWith lit s = true
  · simp only [hlw, if_true, Option.some.injEq] at h
    subst h
    have hle := leadsWith_length_le hlw
    rw [List.length_drop]
    omega
  · simp [hlw] at h

lemma dropWs_length_le : ∀ s : List Char, (dropWs s).length ≤ s.length := by
  intro s
  induction s with
  | nil => simp [dropWs]
  | cons c rest ih =>
    by_cases hw : isPyWs c = true
    · simp only [dropWs, hw, if_true]
      exact Nat.le_trans ih (by simp)
    · simp [dropWs, hw]

lemma matchStyle_shrink : ∀ s r, matchStyle s = some r → r.length < s.length := by
  intro s r h
  unfold matchStyle at h
  by_cases hlw : leadsWith styleOpenData s = true
  · simp only [hlw, if_true] at h
    cases hsp : splitFirst styleCloseData (s.drop styleOpenData.length) with
    | none => rw [hsp] at h; simp at h
    | some pp =>
      obtain ⟨x, post⟩ := pp
      rw [hsp] at h
      simp only [Option.some.injEq] at h
      subst h
      rw [sf_eq] at hsp
      have hlen := congrArg List.length (sfRec_eq_append hsp)
      rw [List.length_drop] at hlen
      simp only [List.length_append] at hlen
      have h7 : styleOpenData.length ≤ s.length := leadsWith_length_le hlw
      have hcl : 0 < styleCloseData.length := by decide
      omega
  · simp [hlw] at h

lemma matchBg_shrink : ∀ s r, matchBg s = some r → r.length < s.length := by
  intro s r h
  unfold matchBg at h
  cases h1 : matchLit bgLit1Data s with
  | none => simp only [h1] at h; exact Option.noConfusion h
  | some s1 =>
    simp only [h1] at h
    cases h2 : matchLit bgLit2Data (dropWs s1) with
    | none => simp only [h2] at h; exact Option.noConfusion h
    | some s2 =>
      simp only [h2] at h
      cases h3 : matchLit bgLit3Data (dropWs s2) with
      | none => simp only [h3] at h; exact Option.noConfusion h
      | some s3 =>
        simp only [h3] at h
        cases h4 : matchLit bgLit4Data (dropWs s3) with
        | none => simp only [h4] at h; exact Option.noConfusion h
        | some s4 =>
          simp only [h4] at h
          have e1 := matchLit_some h1
          have e2 := matchLit_some h2
          have e3 := matchLit_some h3
          have e4 := matchLit_some h4
          have e5 := matchLit_some h
          have d1 := dropWs_length_le s1
          have d2 := dropWs_length_le s2
          have d3 := dropWs_length_le s3
          have d4 := dropWs_length_le s4
          have hb1 : 0 < bgLit1Data.length := by decide
          omega

lemma shrink_findStyle : Shrinking findStyle :=
  shrink_findScan matchStyle_shrink

lemma shrink_findBg : Shrinking findBg :=
  shrink_findScan matchBg_shrink

lemma cntGo_fuel {pat : List Char} (hne : pat ≠ []) :
    ∀ f s, s.length ≤ f → cntGo pat f s = cntGo pat s.length s := by
  intro f
  induction f using Nat.strong_induction_on with
  | _ f ih =>
    intro s hs
    cases f with
    | zero =>
      have h0 : s.length = 0 := Nat.le_zero.mp hs
      rw [h0]
    | succ m =>
      cases h : splitFirst pat s with
      | none =>
        simp only [cntGo, h]
        cases hn : s.length with
        | zero => rfl
        | succ k => simp [cntGo, h]
      | some pp =>
        obtain ⟨pre, post⟩ := pp
        have hp : post.length < s.length := shrink_splitFirst hne s pre post h
        obtain ⟨k, hk⟩ : ∃ k, s.length = k + 1 := ⟨s.length - 1, by omega⟩
        simp only [cntGo, h]
        rw [hk]
        simp only [cntGo, h]
        have e1 : cntGo pat m post = cntGo pat post.length post :=
          ih m (Nat.lt_succ_self m) post (by omega)
        have e2 : cntGo pat k post = cntGo pat post.length post :=
          ih k (by omega) post (by omega)
        rw [e1, e2]

lemma countOccs_none {pat s : List Char} (h : splitFirst pat s = none) :
    countOccs pat s = 0 := by
  unfold countOccs
  cases hn : s.length with
  | zero => rfl
  | succ k => simp [cntGo, h]

lemma countOccs_some {pat s pre post : List Char} (hne : pat ≠ [])
    (h : splitFirst pat s = some (pre, post)) :
    countOccs pat s = countOccs pat post + 1 := by
  unfold countOccs
  have hp : post.length < s.length := shrink_splitFirst hne s pre post h
  obtain ⟨k, hk⟩ : ∃ k, s.length = k + 1 := ⟨s.length - 1, by omega⟩
  rw [hk]
  simp only [cntGo, h]
  rw [cntGo_fuel hne k post (by omega)]

lemma countOccs_append_aux {pat : List Char} (hne : pat ≠ []) :
    ∀ n a b, a.length ≤ n → NoSpan pat a b →
    countOccs pat (a ++ b) = countOccs pat a + countOccs pat b := by
  intro n
  induction n with
  | zero =>
    intro a b ha _
    have h0 : a = [] := List.length_eq_zero.mp (Nat.le_zero.mp ha)
    subst h0
    simp only [List.nil_append]
    have hc : countOccs pat ([] : List Char) = 0 := rfl
    omega
  | succ n ihn =>
    intro a b ha hns
    cases hsf : splitFirst pat a with
    | none =>
      have ha' : sfRec pat a = none := by rw [← sf_eq]; exact hsf
      have hskip := sfRec_skip a b ha' hns
      have hc0 : countOccs pat a = 0 := countOccs_none hsf
      cases hb : sfRec pat b with
      | none =>
        have hab : sfRec pat (a ++ b) = none := by rw [hskip, hb]; rfl
        have hcb : countOccs pat b = 0 := countOccs_none (by rw [sf_eq]; exact hb)
        have hcab : countOccs pat (a ++ b) = 0 := countOccs_none (by rw [sf_eq]; exact hab)
        omega
      | some pp =>
        obtain ⟨p, q⟩ := pp
        have hab : sfRec pat (a ++ b) = some (a ++ p, q) := by rw [hskip, hb]; rfl
        have hcab := countOccs_some hne (s := a ++ b) (by rw [sf_eq]; exact hab)
        have hcb := countOccs_some hne (s := b) (by rw [sf_eq]; exact hb)
        omega
    | some pp =>
      obtain ⟨pre, post⟩ := pp
      have hrec : sfRec pat a = some (pre, post) := by rw [← sf_eq]; exact hsf
      have hab : sfRec pat (a ++ b) = some (pre, post ++ b) := sfRec_append_left hrec
      have hca := countOccs_some hne hsf
      have hab2 : splitFirst pat (a ++ b) = some (pre, post ++ b) := by
        rw [sf_eq]
        exact hab
      have hcab := countOccs_some hne hab2
      have hdec := sfRec_eq_append hrec
      have hlen : post.length ≤ n := by
        have hl := congrArg List.length hdec
        simp only [List.length_append] at hl
        have hpos : 0 < pat.length := List.length_pos.mpr hne
        omega
      have hnspost : NoSpan pat post b :=
        noSpan_mono (u := pre ++ pat) (hdec ▸ hns)
      have hpost := ihn post b hlen hnspost
      omega

lemma countOccs_append {pat a b : List Char} (hne : pat ≠ []) (hns : NoSpan pat a b) :
    countOccs pat (a ++ b) = countOccs pat a + countOccs pat b :=
  countOccs_append_aux hne a.length a b (Nat.le_refl _) hns

lemma allRangeBool_spec {n : Nat} {f : Nat → Bool} (h : allRangeBool n f = true) :
    ∀ k, k < n → f k = true := by
  intro k hk
  unfold allRangeBool at h
  rw [List.all_eq_true] at h
  exact h k (List.mem_range.mpr hk)

lemma noPrefixDrop_spec {pat c : List Char} (h : noPrefixDrop pat c = true) :
    ∀ k, 0 < k → k < pat.length → leadsWith (pat.drop k) c = false := by
  intro k hk1 hk2
  have h2 := allRangeBool_spec h k hk2
  have hk0 : ¬ (k = 0) := by omega
  simpa [hk0] using h2

lemma noTrailsTake_spec {pat a : List Char} (h : noTrailsTake pat a = true) :
    ∀ k, 0 < k → k < pat.length → trails (pat.take k) a = false := by
  intro k hk1 hk2
  have h2 := allRangeBool_spec h k hk2
  have hk0 : ¬ (k = 0) := by omega
  simpa [hk0] using h2

lemma noSpan_of_noPrefixDrop {pat a b : List Char} (h : noPrefixDrop pat b = true) :
    NoSpan pat a b := by
  intro k hk1 hk2 _
  exact noPrefixDrop_spec h k hk1 hk2

lemma noSpan_append_of_noPrefixDrop {pat a c : List Char} (d : List Char)
    (hlen : pat.length ≤ c.length + 1) (h : noPrefixDrop pat c = true) :
    NoSpan pat a (c ++ d) := by
  intro k hk1 hk2 _
  rw [leadsWith_append_of_le d (by rw [List.length_drop]; omega)]
  exact noPrefixDrop_spec h k hk1 hk2

lemma noSpan_of_noTrailsTake {pat a b : List Char} (h : noTrailsTake pat a = true) :
    NoSpan pat a b := by
  intro k hk1 hk2 ht
  have hf := noTrailsTake_spec h k hk1 hk2
  simp [hf] at ht

lemma goodChain_replaceAll {pat repl : List Char} (hne : pat ≠ []) :
    ∀ (segs : List (List Char)) (last : List Char), GoodChain pat segs last →
    replaceAll pat repl (chain pat segs last) = chain repl segs last := by
  intro segs
  induction segs with
  | nil =>
    intro last hg
    exact sub_none hg
  | cons s rest ih =>
    intro last hg
    obtain ⟨h1, h2⟩ := hg
    unfold replaceAll at ih ⊢
    rw [show chain pat (s :: rest) last = s ++ pat ++ chain pat rest last from rfl] at h1 ⊢
    rw [sub_some (shrink_splitFirst hne) h1, ih last h2]
    rfl

lemma split_le {x y a pat b : List Char} (heq : x ++ y = a ++ pat ++ b)
    (hle : a.length + pat.length ≤ x.length) :
    x = a ++ pat ++ x.drop (a.length + pat.length) := by
  have hlen : (a ++ pat).length = a.length + pat.length := by
    simp [List.length_append]
  have h1 := congrArg (List.take (a.length + pat.length)) heq
  have h2 : List.take (a.length + pat.length) ((a ++ pat) ++ b) = a ++ pat := by
    rw [List.take_append_eq_append_take, ← hlen, List.take_length, Nat.sub_self,
      List.take_zero, List.append_nil]
  have h3 : List.take (a.length + pat.length) (x ++ y)
      = List.take (a.length + pat.length) x := by
    rw [List.take_append_eq_append_take, Nat.sub_eq_zero_of_le hle,
      List.take_zero, List.append_nil]
  rw [h3, h2] at h1
  conv_lhs => rw [← List.take_append_drop (a.length + pat.length) x]
  rw [h1, List.append_assoc]

lemma split_ge {x y a pat b : List Char} (heq : x ++ y = a ++ pat ++ b)
    (hle : x.length ≤ a.length) :
    y = a.drop x.length ++ pat ++ b ∧ (a.drop x.length).length + x.length = a.length := by
  constructor
  · have h1 := congrArg (List.drop x.length) heq
    rw [List.drop_left] at h1
    have h2 : List.drop x.length ((a ++ pat) ++ b)
        = (a.drop x.length ++ pat) ++ b := by
      rw [List.drop_append_eq_append_drop, List.drop_append_eq_append_drop,
        Nat.sub_eq_zero_of_le hle, List.drop_zero]
      have hz : x.length - (a ++ pat).length = 0 := by
        simp only [List.length_append]
        omega
      rw [hz, List.drop_zero]
    rw [h2] at h1
    rw [h1, List.append_assoc]
  · rw [List.length_drop]
    omega

lemma split_mid {x y a pat b : List Char} (heq : x ++ y = a ++ pat ++ b)
    (h1 : a.length < x.length) (h2 : x.length < a.length + pat.length) :
    pat.take (x.length - a.length) = x.drop a.length ∧
    leadsWith (pat.drop (x.length - a.length)) y = true := by
  have hd := congrArg (List.drop a.length) heq
  have hL : List.drop a.length (x ++ y) = x.drop a.length ++ y := by
    rw [List.drop_append_eq_append_drop, Nat.sub_eq_zero_of_le (Nat.le_of_lt h1),
      List.drop_zero]
  have hR : List.drop a.length ((a ++ pat) ++ b) = pat ++ b := by
    rw [List.drop_append_eq_append_drop, List.drop_append_eq_append_drop]
    simp only [Nat.sub_self, List.drop_zero, List.drop_length, List.nil_append]
    have hz1 : a.length - (a ++ pat).length = 0 := by
      simp only [List.length_append]
      omega
    rw [hz1, List.drop_zero]
  rw [hL, hR] at hd
  have hk : (x.drop a.length).length = x.length - a.length := List.length_drop _ _
  constructor
  · have ht := congrArg (List.take ((x.drop a.length).length)) hd
    rw [List.take_left] at ht
    rw [hk] at ht
    have hRt : List.take (x.length - a.length) (pat ++ b)
        = pat.take (x.length - a.length) := by
      rw [List.take_append_eq_append_take,
        Nat.sub_eq_zero_of_le (by omega : x.length - a.length ≤ pat.length),
        List.take_zero, List.append_nil]
    rw [hRt] at ht
    exact ht.symm
  · have hdd := congrArg (List.drop ((x.drop a.length).length)) hd
    rw [List.drop_left] at hdd
    rw [hk] at hdd
    have hRd : List.drop (x.length - a.length) (pat ++ b)
        = pat.drop (x.length - a.length) ++ b := by
      rw [List.drop_append_eq_append_drop,
        Nat.sub_eq_zero_of_le (by omega : x.length - a.length ≤ pat.length),
        List.drop_zero]
    rw [hRd] at hdd
    rw [hdd]
    exact leadsWith_append_self _ _

lemma marker_ne : footerMarkerData ≠ [] := by decide

lemma footerTag_ne : footerTagData ≠ [] := by decide

lemma promo_ne : promoData ≠ [] := by decide

lemma newSection_decomp : newSectionData = promoData ++ footerMarkerData := by
  simp [newSectionData, newSectionStr, promoData, footerMarkerData, String.data_append]

lemma promo_len_ge : 12 ≤ promoData.length := by
  have h := leadsWith_length_le
    (show leadsWith "    <div cla".data promoData = true from by decide)
  have e : ("    <div cla".data).length = 12 := by decide
  omega

lemma marker_len : footerMarkerData.length = 12 := by decide

lemma sfRec_promo_marker : sfRec footerMarkerData (promoData ++ footerMarkerData)
    = some (promoData, []) := by
  have hb : sfRec footerMarkerData footerMarkerData = some ([], []) := by
    have hb0 := sfRec_self_append marker_ne ([] : List Char)
    simpa using hb0
  have hr := sfRec_append_some (a := promoData)
    (by rw [← sf_eq]; decide)
    (noSpan_of_noPrefixDrop
      (by decide : noPrefixDrop footerMarkerData footerMarkerData = true))
    hb
  simpa using hr

lemma sf_newSection : splitFirst footerMarkerData newSectionData = some (promoData, []) := by
  rw [sf_eq, newSection_decomp]
  exact sfRec_promo_marker

lemma count_footer_marker_append (post : List Char) :
    countOccs footerTagData (footerMarkerData ++ post)
    = countOccs footerTagData post + 1 := by
  have hsf : sfRec footerTagData (footerMarkerData ++ post) = some ("    ".data, post) := by
    have hdecomp : footerMarkerData ++ post = "    ".data ++ (footerTagData ++ post) := by
      rw [show footerMarkerData = "    ".data ++ footerTagData from by decide,
        List.append_assoc]
    rw [hdecomp]
    have hr := sfRec_append_some (a := "    ".data)
      (by rw [← sf_eq]; decide)
      (noSpan_append_of_noPrefixDrop post (by decide)
        (by decide : noPrefixDrop footerTagData footerTagData = true))
      (sfRec_self_append footerTag_ne post)
    simpa using hr
  exact countOccs_some footerTag_ne (by rw [sf_eq]; exact hsf)

lemma count_footer_newSection : countOccs footerTagData newSectionData = 1 := by
  rw [newSection_decomp]
  rw [countOccs_append footerTag_ne (noSpan_of_noPrefixDrop
    (by decide : noPrefixDrop footerTagData footerMarkerData = true))]
  rw [countOccs_none (by decide : splitFirst footerTagData promoData = none)]
  have h1 : countOccs footerTagData footerMarkerData = 1 := by decide
  omega

end Lemmas

section Claims

/-- Claim C2, counterexample: on `<style>a</style>B<style>b</style>` the
stylesheet step does not leave the second block untouched — the output is
not `new_style` followed by the untouched remainder `B<style>b</style>`. -/
theorem claim2_counterexample :
    fremtidStyleStep "<style>a</style>B<style>b</style>".data ≠
      newStyleData ++ "B<style>b</style>".data := by
  have heval : fremtidStyleStep "<style>a</style>B<style>b</style>".data
      = newStyleData ++ ("B".data ++ newStyleData) := by
    show subAll findStyle newStyleData _ = _
    rw [sub_some shrink_findStyle (by decide :
      findStyle "<style>a</style>B<style>b</style>".data
        = some ([], "B<style>b</style>".data))]
    rw [sub_some shrink_findStyle (by decide :
      findStyle "B<style>b</style>".data = some ("B".data, []))]
    rw [show subAll findStyle newStyleData [] = [] from rfl]
    simp [List.append_assoc]
  rw [heval]
  intro h
  exact absurd (List.append_cancel_left h) (by decide)

/-- Claim C2, amended: `re.sub` with no count replaces every
`<style>...</style>` pair, not only the first: whenever the leftmost match
decomposes the content as `pre ++ match ++ post`, the step rewrites the
match to the fixed stylesheet and continues identically on `post`, so
every further block is rewritten as well. -/
theorem claim2_amended : ∀ s pre post, findStyle s = some (pre, post) →
    fremtidStyleStep s = pre ++ newStyleData ++ fremtidStyleStep post := by
  intro s pre post h
  exact sub_some shrink_findStyle h

theorem claim2_amended_witness :
    findStyle "<style>a</style>B<style>b</style>".data
      = some ([], "B<style>b</style>".data) ∧
    fremtidStyleStep "<style>a</style>B<style>b</style>".data
      = [] ++ newStyleData ++ fremtidStyleStep "B<style>b</style>".data :=
  ⟨by decide, claim2_amended _ _ _ (by decide)⟩

/-- Claim C3, counterexample: on the exact input
`<html><body><footer>x</footer></body></html>` the file-A step does not
produce `<html><body>` ++ promotional block ++ `<footer>x</footer></body></html>`
(neither for the bare block nor for the block including its trailing
marker): the replace target has four leading spaces and never matches. -/
theorem claim3_counterexample :
    patchIndexStep "<html><body><footer>x</footer></body></html>".data ≠
      "<html><body>".data ++ promoData ++ "<footer>x</footer></body></html>".data ∧
    patchIndexStep "<html><body><footer>x</footer></body></html>".data ≠
      "<html><body>".data ++ newSectionData ++ "<footer>x</footer></body></html>".data :=
  ⟨by decide, by decide⟩

/-- Claim C3, amended: on the exact input
`<html><body><footer>x</footer></body></html>` the file-A transformation
returns the input unchanged, because the literal searched for is
`    <footer>` (four leading spaces included) and does not occur. -/
theorem claim3_amended :
    patchIndexStep "<html><body><footer>x</footer></body></html>".data
      = "<html><body><footer>x</footer></body></html>".data := by decide

/-- Claim C5: the purple-to-blue inline-style replacement rewrites every
occurrence of the literal attribute value, not just the first: on any
content decomposed along the leftmost non-overlapping occurrences of the
purple literal, every one of them becomes the blue literal. -/
theorem claim5_all_occurrences : ∀ segs last, GoodChain purpleData segs last →
    fremtidPurpleStep (chain purpleData segs last) = chain blueData segs last := by
  intro segs last hg
  exact goodChain_replaceAll (by decide) segs last hg

theorem claim5_all_occurrences_witness :
    GoodChain purpleData [[], []] [] ∧
    fremtidPurpleStep (chain purpleData [[], []] []) = chain blueData [[], []] [] := by
  have hg : GoodChain purpleData [[], []] [] := ⟨by decide, by decide, by rfl⟩
  exact ⟨hg, claim5_all_occurrences [[], []] [] hg⟩

/-- Claim C7: when a rule matcher does not occur in the content — the
`    <footer>` literal for the insertion step, a `<style>.*?</style>`
match for the stylesheet step, the decorative-background pattern for the
removal step — that rule returns the content unchanged (the embedding is
total, so no error is possible, matching Python where `str.replace` and
`re.sub` simply return the input on no match). -/
theorem claim7_no_match_no_op : ∀ a b c,
    splitFirst footerMarkerData a = none → findStyle b = none → findBg c = none →
    patchIndexStep a = a ∧ fremtidStyleStep b = b ∧ fremtidBgStep c = c := by
  intro a b c h1 h2 h3
  exact ⟨sub_none h1, sub_none h2, sub_none h3⟩

theorem claim7_no_match_no_op_witness :
    (splitFirst footerMarkerData "x".data = none ∧ findStyle "y".data = none ∧
      findBg "z".data = none) ∧
    (patchIndexStep "x".data = "x".data ∧ fremtidStyleStep "y".data = "y".data ∧
      fremtidBgStep "z".data = "z".data) :=
  ⟨⟨by decide, by decide, by decide⟩,
    claim7_no_match_no_op "x".data "y".data "z".data (by decide) (by decide) (by decide)⟩

/-- Claim C9: the paragraph-style rewrite (replacing every
`<p style="margin-bottom:0;">` by
`<p style="margin-bottom:0;color:var(--text-secondary);">`) is idempotent:
the replacement text does not contain the searched literal, and no new
occurrence can straddle a replacement boundary, so a second pass finds
nothing to rewrite. -/
theorem claim9_idempotent : ∀ s,
    fremtidParaStep (fremtidParaStep s) = fremtidParaStep s := by
  have hne : pOldData ≠ [] := by decide
  have key : ∀ n s, s.length ≤ n → splitFirst pOldData (fremtidParaStep s) = none := by
    intro n
    induction n with
    | zero =>
      intro s hs
      have h0 : s = [] := List.length_eq_zero.mp (Nat.le_zero.mp hs)
      subst h0
      rfl
    | succ n ihn =>
      intro s hs
      cases h : splitFirst pOldData s with
      | none =>
        have he : fremtidParaStep s = s := sub_none h
        rw [he]
        exact h
      | some pp =>
        obtain ⟨pre, post⟩ := pp
        have heval : fremtidParaStep s = pre ++ (pNewData ++ fremtidParaStep post) := by
          show subAll (splitFirst pOldData) pNewData s = _
          rw [sub_some (shrink_splitFirst hne) h, List.append_assoc]
          rfl
        have hrec : sfRec pOldData s = some (pre, post) := by
          rw [← sf_eq]
          exact h
        have hlen : post.length ≤ n := by
          have hl := congrArg List.length (sfRec_eq_append hrec)
          simp only [List.length_append] at hl
          have hp : 0 < pOldData.length := List.length_pos.mpr hne
          omega
        rw [heval, sf_eq]
        apply sfRec_append_none (sfRec_sub_none hrec)
          (noSpan_append_of_noPrefixDrop _ (by decide) (by decide))
        apply sfRec_append_none (by rw [← sf_eq]; decide)
          (noSpan_of_noTrailsTake (by decide))
        rw [← sf_eq]
        exact ihn post hlen
  intro s
  exact sub_none (key s.length s (Nat.le_refl _))

/-- Claim C10: the patch computation is a deterministic pure function of
the two input file contents: two runs on equal contents produce equal
rewritten contents and the same printed completion line. -/
theorem claim10_deterministic : ∀ a1 b1 a2 b2 : List Char, a1 = a2 → b1 = b2 →
    patchRun a1 b1 = patchRun a2 b2 := by
  intro a1 b1 a2 b2 h1 h2
  rw [h1, h2]

theorem claim10_deterministic_witness :
    ("x".data = ("x".data : List Char) ∧ "y".data = ("y".data : List Char)) ∧
    patchRun "x".data "y".data = patchRun "x".data "y".data :=
  ⟨⟨rfl, rfl⟩, claim10_deterministic _ _ _ _ rfl rfl⟩

/-- Claim C1, counterexample: on `    <footer>A    <footer>` the
footer-insertion step does not leave the second marker occurrence
untouched — its output differs from the block followed by the untouched
remainder `A    <footer>`. -/
theorem claim1_counterexample :
    patchIndexStep "    <footer>A    <footer>".data ≠
      newSectionData ++ "A    <footer>".data := by
  have heval : patchIndexStep "    <footer>A    <footer>".data
      = newSectionData ++ ("A".data ++ newSectionData) := by
    show subAll (splitFirst footerMarkerData) newSectionData _ = _
    rw [sub_some (shrink_splitFirst marker_ne) (by decide :
      splitFirst footerMarkerData "    <footer>A    <footer>".data
        = some ([], "A    <footer>".data))]
    rw [sub_some (shrink_splitFirst marker_ne) (by decide :
      splitFirst footerMarkerData "A    <footer>".data = some ("A".data, []))]
    rw [show subAll (splitFirst footerMarkerData) newSectionData [] = [] from rfl]
    simp [List.append_assoc]
  rw [heval]
  intro h
  exact absurd (List.append_cancel_left h) (by decide)

/-- Claim C1, amended: `str.replace` with no count replaces every literal
occurrence of `    <footer>` (the marker carries four leading spaces),
not only the first: on any content decomposed along the leftmost
non-overlapping marker occurrences, every one is rewritten to the
promotional block (which itself ends with the marker). -/
theorem claim1_amended : ∀ segs last, GoodChain footerMarkerData segs last →
    patchIndexStep (chain footerMarkerData segs last) = chain newSectionData segs last := by
  intro segs last hg
  exact goodChain_replaceAll marker_ne segs last hg

theorem claim1_amended_witness :
    GoodChain footerMarkerData [[], "A".data] [] ∧
    patchIndexStep (chain footerMarkerData [[], "A".data] [])
      = chain newSectionData [[], "A".data] [] := by
  have hg : GoodChain footerMarkerData [[], "A".data] [] := ⟨by decide, by decide, by rfl⟩
  exact ⟨hg, claim1_amended [[], "A".data] [] hg⟩

/-- Claim C4, counterexample: the content `<footer>` contains exactly one
occurrence of `<footer>`, yet the file-A transformation leaves it
completely unchanged — in particular the promotional block does not occur
in the output — because the searched literal is `    <footer>` with four
leading spaces. -/
theorem claim4_counterexample :
    countOccs footerTagData "<footer>".data = 1 ∧
    patchIndexStep "<footer>".data = "<footer>".data ∧
    splitFirst promoData "<footer>".data = none :=
  ⟨by decide, by decide, by decide⟩

/-- Claim C4, amended: for content with exactly one occurrence of the
actual marker `    <footer>` (leftmost occurrence after `pre`, none in
`post`), the output is `pre` ++ promotional block ++ marker ++ `post` —
the block sits immediately before the original marker — and the marker
occurs exactly once in the output. -/
theorem claim4_amended : ∀ s pre post,
    splitFirst footerMarkerData s = some (pre, post) →
    splitFirst footerMarkerData post = none →
    patchIndexStep s = pre ++ promoData ++ footerMarkerData ++ post ∧
    countOccs footerMarkerData (patchIndexStep s) = 1 := by
  intro s pre post h1 h2
  have hrec : sfRec footerMarkerData s = some (pre, post) := by
    rw [← sf_eq]
    exact h1
  have hdec : s = pre ++ footerMarkerData ++ post := sfRec_eq_append hrec
  have heval2 : patchIndexStep s = pre ++ promoData ++ footerMarkerData ++ post := by
    have heval : patchIndexStep s = pre ++ newSectionData ++ post := by
      show subAll (splitFirst footerMarkerData) newSectionData s = _
      rw [sub_some (shrink_splitFirst marker_ne) h1, sub_none h2]
    rw [heval, newSection_decomp]
    simp [List.append_assoc]
  refine ⟨heval2, ?_⟩
  rw [heval2]
  have hm12 := marker_len
  have hp12 := promo_len_ge
  have hout : sfRec footerMarkerData ((pre ++ promoData) ++ footerMarkerData ++ post)
      = some (pre ++ promoData, post) := by
    apply sfRec_of_leftmost marker_ne
    intro a b heq
    by_contra hcon
    push_neg at hcon
    rw [List.length_append] at hcon
    have heq' : pre ++ (promoData ++ footerMarkerData ++ post)
        = a ++ footerMarkerData ++ b := by
      simpa [List.append_assoc] using heq
    rcases Nat.lt_or_ge a.length pre.length with hA | hB
    · rcases le_or_lt (a.length + footerMarkerData.length) pre.length with hA1 | hA2
      · have hsp := split_le heq' hA1
        have hleft := sfRec_leftmost hrec
        have hsdec : s = a ++ footerMarkerData ++
            (pre.drop (a.length + footerMarkerData.length) ++ footerMarkerData ++ post) := by
          rw [hdec]
          conv_lhs => rw [hsp]
          simp [List.append_assoc]
        have hle := hleft a _ hsdec
        omega
      · obtain ⟨htk, hlw⟩ := split_mid heq' hA hA2
        have hk1 : 0 < pre.length - a.length := by omega
        have hk2 : pre.length - a.length < footerMarkerData.length := by omega
        rw [show promoData ++ footerMarkerData ++ post
            = promoData ++ (footerMarkerData ++ post) from List.append_assoc _ _ _] at hlw
        rw [leadsWith_append_of_le _ (by rw [List.length_drop]; omega)] at hlw
        have hfalse := noPrefixDrop_spec
          (by decide : noPrefixDrop footerMarkerData promoData = true)
          (pre.length - a.length) hk1 hk2
        rw [hfalse] at hlw
        exact Bool.noConfusion hlw
    · obtain ⟨heq2, hlen2⟩ := split_ge heq' hB
      have ha2len : (a.drop pre.length).length < promoData.length := by omega
      have heq3 : (promoData ++ footerMarkerData) ++ post
          = a.drop pre.length ++ footerMarkerData ++ b := by
        simpa [List.append_assoc] using heq2
      have hsp2 := split_le heq3 (by rw [List.length_append]; omega)
      have hleft2 := sfRec_leftmost sfRec_promo_marker
      have hle2 := hleft2 (a.drop pre.length) _ hsp2
      omega
  have hcnt := countOccs_some marker_ne
    (s := (pre ++ promoData) ++ footerMarkerData ++ post) (by rw [sf_eq]; exact hout)
  rw [show pre ++ promoData ++ footerMarkerData ++ post
      = (pre ++ promoData) ++ footerMarkerData ++ post from rfl, hcnt,
    countOccs_none h2]

theorem claim4_amended_witness :
    (splitFirst footerMarkerData "X    <footer>Y".data = some ("X".data, "Y".data) ∧
      splitFirst footerMarkerData "Y".data = none) ∧
    (patchIndexStep "X    <footer>Y".data
        = "X".data ++ promoData ++ footerMarkerData ++ "Y".data ∧
      countOccs footerMarkerData (patchIndexStep "X    <footer>Y".data) = 1) :=
  ⟨⟨by decide, by decide⟩,
    claim4_amended "X    <footer>Y".data "X".data "Y".data (by decide) (by decide)⟩

/-- Claim C6: the composed patch transformation is not idempotent: for the
file pair `("    <footer>", "")`, one run turns file A into the
promotional block (which ends with `    <footer>` again), and a second
run inserts the block once more, so running the patcher twice differs
from running it once. -/
theorem claim6_not_idempotent :
    patchPair (patchPair ("    <footer>".data, [])) ≠ patchPair ("    <footer>".data, []) := by
  have e1 : patchIndexStep "    <footer>".data = newSectionData := by
    show subAll (splitFirst footerMarkerData) newSectionData _ = _
    rw [sub_some (shrink_splitFirst marker_ne) (by decide :
      splitFirst footerMarkerData "    <footer>".data = some ([], []))]
    rw [show subAll (splitFirst footerMarkerData) newSectionData [] = [] from rfl]
    simp
  have e2 : patchIndexStep newSectionData = promoData ++ newSectionData := by
    show subAll (splitFirst footerMarkerData) newSectionData _ = _
    rw [sub_some (shrink_splitFirst marker_ne) sf_newSection]
    rw [show subAll (splitFirst footerMarkerData) newSectionData [] = [] from rfl]
    simp
  intro h
  have h1 := congrArg Prod.fst h
  simp only [patchPair] at h1
  rw [e1, e2] at h1
  have hl := congrArg List.length h1
  rw [List.length_append] at hl
  have hz : promoData.length = 0 := by omega
  exact absurd (List.length_eq_zero.mp hz) promo_ne

/-- Claim C8: the file-A footer-insertion transformation preserves the
total number of occurrences of the substring `<footer>` in every input:
each replaced `    <footer>` occurrence is substituted by the block,
which contains `<footer>` exactly once, no `<footer>` occurrence can
straddle a replacement boundary, and text outside matches is untouched. -/
theorem claim8_footer_count_preserved : ∀ s,
    countOccs footerTagData (patchIndexStep s) = countOccs footerTagData s := by
  suffices key : ∀ n s, s.length ≤ n →
      countOccs footerTagData (patchIndexStep s) = countOccs footerTagData s by
    intro s
    exact key s.length s (Nat.le_refl _)
  intro n
  induction n with
  | zero =>
    intro s hs
    have h0 : s = [] := List.length_eq_zero.mp (Nat.le_zero.mp hs)
    subst h0
    rfl
  | succ n ihn =>
    intro s hs
    cases h : splitFirst footerMarkerData s with
    | none =>
      rw [show patchIndexStep s = s from sub_none h]
    | some pp =>
      obtain ⟨pre, post⟩ := pp
      have heval : patchIndexStep s = pre ++ (newSectionData ++ patchIndexStep post) := by
        show subAll (splitFirst footerMarkerData) newSectionData s = _
        rw [sub_some (shrink_splitFirst marker_ne) h, List.append_assoc]
        rfl
      have hdec : s = pre ++ footerMarkerData ++ post :=
        sfRec_eq_append (by rw [← sf_eq]; exact h)
      have hm12 := marker_len
      have hp12 := promo_len_ge
      have hlenpost : post.length ≤ n := by
        have hl := congrArg List.length hdec
        simp only [List.length_append] at hl
        omega
      have hns1 : NoSpan footerTagData pre (newSectionData ++ patchIndexStep post) := by
        intro k hk1 hk2 _
        rw [newSection_decomp, List.append_assoc]
        rw [leadsWith_append_of_le _ (by
          rw [List.length_drop]
          have h8 : footerTagData.length = 8 := by decide
          omega)]
        exact noPrefixDrop_spec (by decide : noPrefixDrop footerTagData promoData = true)
          k hk1 hk2
      have hns2 : NoSpan footerTagData newSectionData (patchIndexStep post) := by
        intro k hk1 hk2 ht
        exfalso
        rw [newSection_decomp] at ht
        rw [trails_append_of_le promoData (by
          rw [List.length_take]
          have h8 : footerTagData.length = 8 := by decide
          omega)] at ht
        have hf := noTrailsTake_spec
          (by decide : noTrailsTake footerTagData footerMarkerData = true) k hk1 hk2
        rw [hf] at ht
        exact Bool.noConfusion ht
      have hlhs : countOccs footerTagData (patchIndexStep s)
          = countOccs footerTagData pre +
            (1 + countOccs footerTagData (patchIndexStep post)) := by
        rw [heval, countOccs_append footerTag_ne hns1,
          countOccs_append footerTag_ne hns2, count_footer_newSection]
      have hrhs : countOccs footerTagData s
          = countOccs footerTagData pre + (countOccs footerTagData post + 1) := by
        rw [hdec, List.append_assoc,
          countOccs_append footerTag_ne (noSpan_append_of_noPrefixDrop post (by decide)
            (by decide : noPrefixDrop footerTagData footerMarkerData = true)),
          count_footer_marker_append]
      rw [hlhs, hrhs, ihn post hlenpost]
      omega

end Claims

end LeksiPatch
